import Mathlib

/-!
# Verification of the esp_littlefs VFS adapter (lowjs variant)

A shallow embedding of the file-descriptor allocator/cache, the by-path
lookup, the VFS dispatch guards, and the block-device adapter of
`src/esp_littlefs.c` and `src/littlefs_api.c`, together with proofs of the
specification claims about them.

Machine integers are modelled as `Nat` with explicit reductions modulo
`2^16` / `2^32` at the points where the C code can overflow.  Pointers to
open-file records are modelled by `Nat` identities (a fresh allocation
yields an identity distinct from every live record).  C `assert` aborts and
null-pointer dereferences are modelled by `Option`: a call that would abort
or invoke undefined behaviour returns `none`.
-/

namespace EspLittlefs

/-- `UINT16_MAX`: `fd_count` and `cache_size` are `uint16_t` fields. -/
def UINT16_MAX : Nat := 65535

/-- Modulus of 32-bit unsigned arithmetic (`uint32_t` / 32-bit `size_t`). -/
def UINT32_LIM : Nat := 4294967296

/-- `CONFIG_LITTLEFS_FD_CACHE_REALLOC_FACTOR` (esp_littlefs.c line 36). -/
def FD_CACHE_REALLOC_FACTOR : Nat := 2

/-- `CONFIG_LITTLEFS_FD_CACHE_MIN_SIZE` (esp_littlefs.c line 37). -/
def FD_CACHE_MIN_SIZE : Nat := 4

/-- The identity of one `vfs_littlefs_file_t` record (stands for the
record's address; live records have pairwise distinct identities). -/
abbrev FileId := Nat

/-- The fd-cache/open-list state of one `esp_littlefs_t` volume:
`cache` is the dynamic array of record pointers indexed by descriptor
(`none` = NULL slot), `fd_count` the number of open descriptors, and
`file` the intrusive singly linked open-file list, head first. -/
structure EfsState where
  cache : List (Option FileId)
  fd_count : Nat
  file : List FileId
deriving DecidableEq, Repr

/-- The state of a freshly mounted volume: `esp_littlefs_init` sets
`cache_size = 4` and zero-allocates the cache (esp_littlefs.c 602-603). -/
def initState : EfsState :=
  { cache := List.replicate 4 none, fd_count := 0, file := [] }

/-- The cache resize performed by `esp_littlefs_allocate_fd`
(esp_littlefs.c 683-693): `new_size = MIN(UINT16_MAX,
CONFIG_LITTLEFS_FD_CACHE_REALLOC_FACTOR * cache_size)`; `realloc` keeps the
first `min (old, new)` entries and the fresh tail is `memset` to NULL. -/
def grownCache (cache : List (Option FileId)) : List (Option FileId) :=
  let newSize := min UINT16_MAX (FD_CACHE_REALLOC_FACTOR * cache.length)
  cache.take newSize ++ List.replicate (newSize - cache.length) none

/-- The first-fit scan of `esp_littlefs_allocate_fd` (esp_littlefs.c
723-728): index of the first NULL slot, or `cache_size` when every slot is
occupied (the C loop then falls through with `i == cache_size`). -/
def findFreeSlot : List (Option FileId) → Nat
  | [] => 0
  | none :: _ => 0
  | some _ :: t => findFreeSlot t + 1

/-- `esp_littlefs_allocate_fd` (esp_littlefs.c 670-734).  `newId` is the
identity of the record the call would allocate, `reallocOk` / `callocOk`
tell whether the two heap allocations succeed.  Returns `none` when one of
the two entry `assert`s fires, otherwise the returned fd (or `-1`) and the
resulting state. -/
def esp_littlefs_allocate_fd (s : EfsState) (newId : FileId)
    (reallocOk callocOk : Bool) : Option (Int × EfsState) :=
  if s.fd_count ≥ UINT16_MAX then none          -- assert(fd_count < UINT16_MAX)
  else if s.cache.length ≥ UINT16_MAX then none -- assert(cache_size < UINT16_MAX)
  else if s.fd_count + 1 > s.cache.length ∧ reallocOk = false then
    some (-1, s)                                -- realloc failed: no state change
  else
    let s1 := if s.fd_count + 1 > s.cache.length then
        { s with cache := grownCache s.cache } else s
    if callocOk = false then
      some (-1, s1)   -- record calloc failed; an already grown cache is kept
    else
      let i := findFreeSlot s1.cache
      some ((i : Int),
        { cache := s1.cache.set i (some newId),
          fd_count := (s1.fd_count + 1) % (UINT16_MAX + 1),
          file := newId :: s1.file })

/-- The predecessor walk of `esp_littlefs_free_fd` (esp_littlefs.c
758-768): starting at the list head, find the node whose `next` is the
record being freed and splice it out; `none` when the walk falls off the
end ("Inconsistent list"). -/
def sllRemoveAfter (fid : FileId) : List FileId → Option (List FileId)
  | [] => none
  | [_] => none
  | x :: y :: t =>
      if y = fid then some (x :: t)
      else (sllRemoveAfter fid (y :: t)).map (x :: ·)

/-- The list unlinking of `esp_littlefs_free_fd` (esp_littlefs.c 753-768):
`if (file == head)` pop the head, otherwise run the predecessor walk;
`none` models the "Inconsistent list" early return (also hit when the head
is NULL, i.e. the list is empty). -/
def sllRemove (fid : FileId) (l : List FileId) : Option (List FileId) :=
  match l with
  | [] => none   -- file != head(=NULL); the walk immediately falls off
  | h :: t => if h = fid then some t else sllRemoveAfter fid (h :: t)

/-- `esp_littlefs_free_fd` (esp_littlefs.c 743-810).  Returns `none` when
`cache[fd]` is NULL (the C code would then dereference a null record
pointer); otherwise the C return value and the resulting state.  The
`#if 0` shrink policy is compiled out in the source and is not modelled.
`fd_count--` is a `uint16_t` decrement, hence the reduction mod `2^16`. -/
def esp_littlefs_free_fd (s : EfsState) (fd : Nat) : Option (Int × EfsState) :=
  if fd ≥ s.cache.length then some (-1, s)  -- if((uint32_t)fd >= cache_size)
  else
    match s.cache.getD fd none with
    | none => none
    | some fid =>
      match sllRemove fid s.file with
      | none => some (-1, s)  -- "Inconsistent list": returns before mutating
      | some l => some (0,
          { cache := s.cache.set fd none,
            fd_count := (s.fd_count + UINT16_MAX) % (UINT16_MAX + 1),
            file := l })

/-- One fd-cache transition: an `esp_littlefs_allocate_fd` call with a
fresh record identity, or an `esp_littlefs_free_fd` call, in either case
one that returns (does not abort on an assert or crash). -/
inductive Step : EfsState → EfsState → Prop where
  | alloc (s : EfsState) (newId : FileId) (rOk cOk : Bool) (fd : Int)
      (s' : EfsState) (hfresh : newId ∉ s.file)
      (h : esp_littlefs_allocate_fd s newId rOk cOk = some (fd, s')) :
      Step s s'
  | free (s : EfsState) (fd : Nat) (r : Int) (s' : EfsState)
      (h : esp_littlefs_free_fd s fd = some (r, s')) :
      Step s s'

/-- States reachable from a freshly mounted (empty) volume by allocate and
free calls. -/
inductive Reachable : EfsState → Prop where
  | init : Reachable initState
  | step (s s' : EfsState) (hr : Reachable s) (hs : Step s s') : Reachable s'

/-- The record identities held by the cache slots, in slot order. -/
def cacheFds (s : EfsState) : List FileId := s.cache.filterMap (fun x => x)

/-- The volume invariant: the open-file list holds no duplicate record,
its members are exactly the non-NULL cache slots, `fd_count` is its
length, and the cache capacity stays within `[1, UINT16_MAX]`. -/
def FdInvariant (s : EfsState) : Prop :=
  s.file.Nodup ∧ List.Perm (cacheFds s) s.file ∧
  s.fd_count = s.file.length ∧
  1 ≤ s.cache.length ∧ s.cache.length ≤ UINT16_MAX

end EspLittlefs

namespace EspLittlefs

/-! ## List helper lemmas for the fd-cache invariant -/

theorem length_filter_isSome (l : List (Option FileId)) :
    (l.filter Option.isSome).length = (l.filterMap (fun x => x)).length := by
  induction l with
  | nil => rfl
  | cons c t ih => cases c <;> simp [ih]

theorem filterMap_replicate_none (n : Nat) :
    (List.replicate n (none : Option FileId)).filterMap (fun x => x) = [] := by
  induction n with
  | zero => rfl
  | succ k ih => simp [List.replicate_succ, ih]

theorem findFreeSlot_spec (l : List (Option FileId))
    (h : (l.filterMap (fun x => x)).length < l.length) :
    findFreeSlot l < l.length ∧ l.getD (findFreeSlot l) none = none := by
  induction l with
  | nil => simp at h
  | cons c t ih =>
    cases c with
    | none => simp [findFreeSlot]
    | some a =>
      have h' : (t.filterMap (fun x => x)).length < t.length := by
        simp at h; omega
      have ht := ih h'
      simp only [findFreeSlot, List.length_cons, List.getD_cons_succ]
      exact ⟨by omega, ht.2⟩

theorem mem_filterMap_of_getD (l : List (Option FileId)) (i : Nat) (a : FileId)
    (h : l.getD i none = some a) : a ∈ l.filterMap (fun x => x) := by
  induction l generalizing i with
  | nil => simp [List.getD] at h
  | cons c t ih =>
    cases i with
    | zero =>
      simp only [List.getD_cons_zero] at h
      subst h; simp
    | succ n =>
      simp only [List.getD_cons_succ] at h
      cases c with
      | none => simpa using ih n h
      | some b => simpa using Or.inr (ih n h)

theorem filterMap_set_some_of_none (l : List (Option FileId)) (i : Nat) (a : FileId)
    (hlt : i < l.length) (hnone : l.getD i none = none) :
    List.Perm ((l.set i (some a)).filterMap (fun x => x))
      (a :: l.filterMap (fun x => x)) := by
  induction l generalizing i with
  | nil => simp at hlt
  | cons c t ih =>
    cases i with
    | zero =>
      simp only [List.getD_cons_zero] at hnone
      subst hnone
      simp [List.set]
    | succ n =>
      simp only [List.getD_cons_succ] at hnone
      simp only [List.length_cons] at hlt
      have hp := ih n (by omega) hnone
      cases c with
      | none =>
        simpa [List.set] using hp
      | some b =>
        simp only [List.set, List.filterMap_cons_some]
        exact (hp.cons b).trans (List.Perm.swap a b _)

theorem filterMap_set_none_perm_erase (l : List (Option FileId)) (i : Nat) (a : FileId)
    (h : l.getD i none = some a) (hnd : (l.filterMap (fun x => x)).Nodup) :
    List.Perm ((l.set i none).filterMap (fun x => x))
      ((l.filterMap (fun x => x)).erase a) := by
  induction l generalizing i with
  | nil => simp [List.getD] at h
  | cons c t ih =>
    cases i with
    | zero =>
      simp only [List.getD_cons_zero] at h
      subst h
      simp [List.set]
    | succ n =>
      simp only [List.getD_cons_succ] at h
      cases c with
      | none =>
        simp only [List.filterMap_cons_none] at hnd ⊢
        simpa [List.set] using ih n h hnd
      | some b =>
        have hfm : (some b :: t).filterMap (fun x => x) = b :: t.filterMap (fun x => x) := by
          simp
        rw [hfm] at hnd
        have hmem : a ∈ t.filterMap (fun x => x) := mem_filterMap_of_getD t n a h
        have hba : b ≠ a := by
          rintro rfl
          exact (List.nodup_cons.mp hnd).1 hmem
        rw [List.set, hfm,
          List.erase_cons_tail (by simpa using hba)]
        have hfm2 : ((some b :: t.set n none).filterMap (fun x => x))
            = b :: (t.set n none).filterMap (fun x => x) := by simp
        rw [hfm2]
        exact (ih n h (List.nodup_cons.mp hnd).2).cons b

theorem sllRemoveAfter_eq_erase (fid : FileId) (t : List FileId) (x : FileId)
    (hx : x ≠ fid) (hmem : fid ∈ t) :
    sllRemoveAfter fid (x :: t) = some (x :: t.erase fid) := by
  induction t generalizing x with
  | nil => simp at hmem
  | cons y t' ih =>
    by_cases hy : y = fid
    · subst hy
      simp [sllRemoveAfter, List.erase_cons_head]
    · have hmem' : fid ∈ t' := by
        rcases List.mem_cons.mp hmem with h | h
        · exact absurd h.symm hy
        · exact h
      rw [sllRemoveAfter, if_neg hy, ih y hy hmem',
        List.erase_cons_tail (by simpa using hy)]
      rfl

end EspLittlefs


namespace EspLittlefs

/-! ## Properties of the cache growth -/

theorem uint16_eq : UINT16_MAX = 65535 := rfl

theorem factor_eq : FD_CACHE_REALLOC_FACTOR = 2 := rfl

theorem getD_replicate_none (n i : Nat) :
    (List.replicate n (none : Option FileId)).getD i none = none := by
  induction n generalizing i with
  | zero => simp [List.getD]
  | succ k ih =>
    cases i with
    | zero => simp [List.replicate_succ]
    | succ j => simp [List.replicate_succ]

theorem grownCache_eq_append (cache : List (Option FileId))
    (h2 : cache.length ≤ UINT16_MAX) :
    grownCache cache = cache ++ List.replicate
      (min UINT16_MAX (FD_CACHE_REALLOC_FACTOR * cache.length) - cache.length) none := by
  simp only [grownCache]
  rw [List.take_of_length_le]
  simp only [uint16_eq, factor_eq] at h2 ⊢
  omega

theorem grownCache_length (cache : List (Option FileId))
    (h2 : cache.length ≤ UINT16_MAX) :
    (grownCache cache).length
      = min UINT16_MAX (FD_CACHE_REALLOC_FACTOR * cache.length) := by
  rw [grownCache_eq_append cache h2]
  simp only [List.length_append, List.length_replicate]
  simp only [uint16_eq, factor_eq] at h2 ⊢
  omega

theorem grownCache_filterMap (cache : List (Option FileId))
    (h2 : cache.length ≤ UINT16_MAX) :
    (grownCache cache).filterMap (fun x => x) = cache.filterMap (fun x => x) := by
  rw [grownCache_eq_append cache h2, List.filterMap_append, filterMap_replicate_none,
    List.append_nil]

theorem grownCache_getD_lt (cache : List (Option FileId)) (j : Nat)
    (h2 : cache.length ≤ UINT16_MAX) (hj : j < cache.length) :
    (grownCache cache).getD j none = cache.getD j none := by
  rw [grownCache_eq_append cache h2]
  exact List.getD_append _ _ _ _ hj

theorem grownCache_getD_new (cache : List (Option FileId)) (j : Nat)
    (h2 : cache.length ≤ UINT16_MAX) (hj : cache.length ≤ j) :
    (grownCache cache).getD j none = none := by
  rw [grownCache_eq_append cache h2, List.getD_append_right _ _ _ _ hj,
    getD_replicate_none]

end EspLittlefs

namespace EspLittlefs

/-! ## Invariant preservation -/

theorem allocate_fd_inv (s : EfsState) (newId : FileId) (rOk cOk : Bool)
    (fd : Int) (s' : EfsState) (hinv : FdInvariant s) (hfresh : newId ∉ s.file)
    (h : esp_littlefs_allocate_fd s newId rOk cOk = some (fd, s')) :
    FdInvariant s' := by
  obtain ⟨hnd, hperm, hcnt, hlen1, hlen2⟩ := hinv
  have hfd_fm : s.fd_count = (s.cache.filterMap (fun x => x)).length :=
    hcnt.trans hperm.length_eq.symm
  unfold esp_littlefs_allocate_fd at h
  by_cases ha1 : s.fd_count ≥ UINT16_MAX
  · rw [if_pos ha1] at h; exact absurd h (by simp)
  rw [if_neg ha1] at h
  by_cases ha2 : s.cache.length ≥ UINT16_MAX
  · rw [if_pos ha2] at h; exact absurd h (by simp)
  rw [if_neg ha2] at h
  by_cases hg : s.fd_count + 1 > s.cache.length ∧ rOk = false
  · rw [if_pos hg] at h
    simp only [Option.some.injEq, Prod.mk.injEq] at h
    obtain ⟨-, hs'⟩ := h
    subst hs'
    exact ⟨hnd, hperm, hcnt, hlen1, hlen2⟩
  rw [if_neg hg] at h
  simp only at h
  set s1 : EfsState := if s.fd_count + 1 > s.cache.length then
      { s with cache := grownCache s.cache } else s with hs1
  have hs1file : s1.file = s.file := by
    rw [hs1]; split <;> rfl
  have hs1cnt : s1.fd_count = s.fd_count := by
    rw [hs1]; split <;> rfl
  have hs1fm : s1.cache.filterMap (fun x => x) = s.cache.filterMap (fun x => x) := by
    rw [hs1]; split
    · exact grownCache_filterMap s.cache (by omega)
    · rfl
  have hs1len1 : 1 ≤ s1.cache.length := by
    rw [hs1]; split
    · rw [grownCache_length s.cache (by omega)]
      simp only [uint16_eq, factor_eq]
      omega
    · exact hlen1
  have hs1len2 : s1.cache.length ≤ UINT16_MAX := by
    rw [hs1]; split
    · rw [grownCache_length s.cache (by omega)]
      exact Nat.min_le_left _ _
    · exact hlen2
  have hs1room : s1.fd_count + 1 ≤ s1.cache.length := by
    rw [hs1]
    split
    · have hrle : (s.cache.filterMap (fun x => x)).length ≤ s.cache.length :=
        List.length_filterMap_le _ _
      show s.fd_count + 1 ≤ (grownCache s.cache).length
      rw [grownCache_length s.cache (by omega)]
      simp only [uint16_eq, factor_eq] at ha2 ⊢
      omega
    · omega
  clear_value s1
  by_cases hc : cOk = false
  · rw [if_pos hc] at h
    simp only [Option.some.injEq, Prod.mk.injEq] at h
    obtain ⟨-, hs'⟩ := h
    subst hs'
    refine ⟨?_, ?_, ?_, hs1len1, hs1len2⟩
    · rw [hs1file]; exact hnd
    · unfold cacheFds
      rw [hs1fm, hs1file]; exact hperm
    · rw [hs1cnt, hs1file]; exact hcnt
  rw [if_neg hc] at h
  simp only [Option.some.injEq, Prod.mk.injEq] at h
  obtain ⟨-, hs'⟩ := h
  subst hs'
  have hroom' : (s1.cache.filterMap (fun x => x)).length < s1.cache.length := by
    rw [hs1fm]
    rw [hs1cnt] at hs1room
    omega
  obtain ⟨hslot_lt, hslot_none⟩ := findFreeSlot_spec s1.cache hroom'
  refine ⟨?_, ?_, ?_, ?_, ?_⟩
  · simp only [hs1file]
    exact List.nodup_cons.mpr ⟨hfresh, hnd⟩
  · unfold cacheFds
    have hp1 := filterMap_set_some_of_none s1.cache (findFreeSlot s1.cache) newId
      hslot_lt hslot_none
    refine hp1.trans ?_
    rw [hs1fm, hs1file]
    exact hperm.cons newId
  · show (s1.fd_count + 1) % (UINT16_MAX + 1) = (newId :: s1.file).length
    have hb : s1.fd_count + 1 ≤ UINT16_MAX := by
      rw [hs1cnt]
      simp only [uint16_eq] at ha1 ⊢
      omega
    rw [Nat.mod_eq_of_lt (by omega)]
    simp [hs1file, hs1cnt, hcnt]
  · simpa using hs1len1
  · simpa using hs1len2

end EspLittlefs

namespace EspLittlefs

theorem sllRemove_eq_erase (fid : FileId) (l : List FileId) (hmem : fid ∈ l) :
    sllRemove fid l = some (l.erase fid) := by
  rcases l with - | ⟨hd, t⟩
  · simp at hmem
  · by_cases hhd : hd = fid
    · subst hhd
      simp [sllRemove, List.erase_cons_head]
    · have hmt : fid ∈ t := by
        rcases List.mem_cons.mp hmem with h' | h'
        · exact absurd h'.symm hhd
        · exact h'
      rw [sllRemove, if_neg hhd, sllRemoveAfter_eq_erase fid t hd hhd hmt,
        List.erase_cons_tail (by simpa using hhd)]

theorem free_fd_inv (s : EfsState) (fd : Nat) (r : Int) (s' : EfsState)
    (hinv : FdInvariant s) (h : esp_littlefs_free_fd s fd = some (r, s')) :
    FdInvariant s' := by
  obtain ⟨hnd, hperm, hcnt, hlen1, hlen2⟩ := hinv
  unfold esp_littlefs_free_fd at h
  split at h
  · simp only [Option.some.injEq, Prod.mk.injEq] at h
    obtain ⟨-, hs'⟩ := h
    subst hs'
    exact ⟨hnd, hperm, hcnt, hlen1, hlen2⟩
  · split at h
    · exact absurd h (by simp)
    · rename_i fid hslot
      have hmemfm : fid ∈ s.cache.filterMap (fun x => x) :=
        mem_filterMap_of_getD s.cache fd fid hslot
      have hmemfile : fid ∈ s.file := hperm.mem_iff.mp hmemfm
      have hndfm : (s.cache.filterMap (fun x => x)).Nodup :=
        (hperm.nodup_iff).mpr hnd
      rw [sllRemove_eq_erase fid s.file hmemfile] at h
      simp only [Option.some.injEq, Prod.mk.injEq] at h
      obtain ⟨-, hs'⟩ := h
      subst hs'
      have hfm_len : (s.cache.filterMap (fun x => x)).length = s.file.length :=
        hperm.length_eq
      have hfile_pos : 1 ≤ s.file.length := List.length_pos.mpr
        (List.ne_nil_of_mem hmemfile)
      have hfile_le : s.file.length ≤ UINT16_MAX := by
        have := List.length_filterMap_le (fun x : Option FileId => x) s.cache
        omega
      refine ⟨?_, ?_, ?_, ?_, ?_⟩
      · exact hnd.erase fid
      · unfold cacheFds
        refine (filterMap_set_none_perm_erase s.cache fd fid hslot hndfm).trans ?_
        exact hperm.erase fid
      · show (s.fd_count + UINT16_MAX) % (UINT16_MAX + 1) = (s.file.erase fid).length
        rw [List.length_erase_of_mem hmemfile, hcnt]
        simp only [uint16_eq] at hfile_le ⊢
        omega
      · simpa using hlen1
      · simpa using hlen2

/-- Every state reachable from a fresh mount satisfies the volume
invariant. -/
theorem reachable_fdInvariant (s : EfsState) (h : Reachable s) : FdInvariant s := by
  induction h with
  | init =>
    refine ⟨?_, ?_, ?_, ?_, ?_⟩ <;> decide
  | step s s' hr hs ih =>
    cases hs with
    | alloc newId rOk cOk fd s2 hfresh halloc =>
      exact allocate_fd_inv s newId rOk cOk fd _ ih hfresh halloc
    | free fd r s2 hfree =>
      exact free_fd_inv s fd r _ ih hfree

end EspLittlefs

namespace EspLittlefs

/-- The state produced by one successful open on a fresh volume. -/
def stateAfterOneOpen : EfsState :=
  { cache := [some 0, none, none, none], fd_count := 1, file := [0] }

/-- C1: for every finite sequence of descriptor allocations
(`esp_littlefs_allocate_fd`) and deallocations (`esp_littlefs_free_fd`)
starting from an empty volume, after each step `fd_count` equals the
number of non-NULL slots of the fd cache and also equals the length of the
intrusive open-file list. -/
theorem fd_count_eq_slots_eq_list (s : EfsState) (h : Reachable s) :
    s.fd_count = (s.cache.filter Option.isSome).length ∧
    s.fd_count = s.file.length := by
  obtain ⟨-, hperm, hcnt, -, -⟩ := reachable_fdInvariant s h
  constructor
  · rw [length_filter_isSome, hcnt]
    exact hperm.length_eq.symm
  · exact hcnt

/-- Witness for C1 at the concrete state reached by one allocation from a
fresh volume. -/
theorem fd_count_eq_slots_eq_list_witness :
    stateAfterOneOpen.fd_count
        = (stateAfterOneOpen.cache.filter Option.isSome).length ∧
    stateAfterOneOpen.fd_count = stateAfterOneOpen.file.length :=
  fd_count_eq_slots_eq_list stateAfterOneOpen
    (Reachable.step initState stateAfterOneOpen Reachable.init
      (Step.alloc initState 0 true true 0 stateAfterOneOpen
        (by decide) (by decide)))

end EspLittlefs

namespace EspLittlefs

/-! ## Error constants

Numeric values of the external collaborators' error codes: the littlefs
engine enumeration (`lfs.h`) and the newlib errno values used by the
ESP32 toolchain.  Neither header is part of this repository. -/

def LFS_ERR_BADF : Int := -9

def LFS_ERR_ISDIR : Int := -21

def LFS_ERR_INVAL : Int := -22

def LFS_ERR_NOMEM : Int := -12

def ENOMEM : Int := 12

def EBUSY : Int := 16

/-! ## The descriptor bound guard (C2) -/

/-- What a descriptor operation does with its descriptor argument before
touching the engine: reject it, or dereference a cache slot. -/
inductive FdGuard where
  | rejectBadf
  | deref (slot : Option FileId)
deriving DecidableEq, Repr

/-- The descriptor guard shared verbatim by `vfs_littlefs_write`
(esp_littlefs.c 923), `vfs_littlefs_read` (955), `vfs_littlefs_close`
(987), `vfs_littlefs_lseek` (1028), `vfs_littlefs_fsync` (1062) and
`vfs_littlefs_fstat` (1098): `if((uint32_t)fd > efs->cache_size)` set
`errno = -LFS_ERR_BADF` and return; otherwise `file = efs->cache[fd]` is
read.  For `fd == cache_size` the read is one past the end of the array;
the model returns the default `none` for it. -/
def vfs_fd_bound_check (s : EfsState) (fd : Nat) : FdGuard :=
  if fd > s.cache.length then FdGuard.rejectBadf
  else FdGuard.deref (s.cache.getD fd none)

/-- C2 (code bug): with cache capacity 4, descriptor 4 (`== capacity`) is
NOT rejected by the guard used by write/read/close/lseek/fsync/fstat — the
strict `>` lets it through to the (out-of-bounds) cache dereference — even
though `esp_littlefs_free_fd`, whose bound check uses `>=`, does reject
the same descriptor with `-1`. -/
theorem descriptor_bound_check_off_by_one :
    vfs_fd_bound_check initState 4 = FdGuard.deref none ∧
    vfs_fd_bound_check initState 4 ≠ FdGuard.rejectBadf ∧
    esp_littlefs_free_fd initState 4 = some (-1, initState) := by
  refine ⟨by decide, by decide, by decide⟩

end EspLittlefs

namespace EspLittlefs

/-! ## Path hashing and by-path lookup (Model B)

For the claims about `esp_littlefs_get_fd_by_name`, `vfs_littlefs_unlink`
and `vfs_littlefs_rename` the open-file records need their stored `hash`
and `path` fields; the intrusive list plays no role in these functions, so
this model keeps only the cache array and `fd_count`.  A path is the list
of its (nonzero) bytes, without the terminating NUL. -/

/-- The fields of a `vfs_littlefs_file_t` used by the by-path lookup. -/
structure FileRec where
  hash : Nat
  path : List Nat
deriving DecidableEq, Repr

/-- A volume as seen by the by-path lookup: the fd cache and `fd_count`. -/
structure LookupState where
  cache : List (Option FileRec)
  fd_count : Nat
deriving DecidableEq, Repr

/-- `compute_hash` (esp_littlefs.c 817-824): `hash = 5381`, then per byte
`hash = ((hash << 5) + hash) + c` on `uint32_t`. -/
def compute_hash (path : List Nat) : Nat :=
  path.foldl
    (fun h c => (((h <<< 5) % UINT32_LIM + h) % UINT32_LIM + c) % UINT32_LIM)
    5381

/-- The DJB2 reference recurrence as the specification states it:
`h = 5381`; for each byte `b` in order, `h` becomes `h * 33 + b`, computed
modulo `2^32`. -/
def djb2Reference (path : List Nat) : Nat :=
  path.foldl (fun h b => (h * 33 + b) % UINT32_LIM) 5381

/-- The scan loop of `esp_littlefs_get_fd_by_name` (esp_littlefs.c
838-852): `for(i=0, j=0; i < cache_size && j < fd_count; i++)`, counting
populated slots in `j`, comparing the hash first and the full path only
when the hash matches (`&&` short-circuit, represented by the nesting of
the two `if`s). -/
def get_fd_by_name_go (hsh : Nat) (p : List Nat) :
    List (Option FileRec) → Nat → Nat → Nat → Int
  | [], _, _, _ => -1
  | c :: rest, i, j, fdc =>
    if j < fdc then
      match c with
      | some f =>
        if f.hash = hsh then
          (if f.path = p then (i : Int)
           else get_fd_by_name_go hsh p rest (i + 1) (j + 1) fdc)
        else get_fd_by_name_go hsh p rest (i + 1) (j + 1) fdc
      | none => get_fd_by_name_go hsh p rest (i + 1) j fdc
    else -1

/-- `esp_littlefs_get_fd_by_name` (esp_littlefs.c 835-855): hash the
path, scan the populated slots, return the slot index or `-1`. -/
def esp_littlefs_get_fd_by_name (s : LookupState) (p : List Nat) : Int :=
  get_fd_by_name_go (compute_hash p) p s.cache 0 0 s.fd_count

/-- Result of a path operation wrapper: the returned value, the value
written to `errno` (`none` = errno untouched), and whether the engine
primitive (`lfs_remove` / `lfs_rename`) was invoked. -/
structure PathOpResult where
  ret : Int
  errnoVal : Option Int
  engineCalled : Bool
deriving DecidableEq, Repr

/-- `vfs_littlefs_unlink` (esp_littlefs.c 1155-1199).  Engine oracles:
`statRes` is the `lfs_stat` result (`0` on success, negative on failure),
`statIsDir` tells whether the stat'd object is a directory, `removeRes`
the `lfs_remove` result.  Note the open-descriptor branch sets
`errno = -res` where `res` is the (successful, hence `0`) stat result. -/
def vfs_littlefs_unlink (s : LookupState) (p : List Nat)
    (statRes : Int) (statIsDir : Bool) (removeRes : Int) : PathOpResult :=
  if statRes < 0 then ⟨-1, some (-statRes), false⟩
  else if 0 ≤ esp_littlefs_get_fd_by_name s p then ⟨-1, some (-statRes), false⟩
  else if statIsDir then ⟨-1, some (-LFS_ERR_ISDIR), false⟩
  else if removeRes < 0 then ⟨-1, some (-removeRes), true⟩
  else ⟨0, none, true⟩

/-- `vfs_littlefs_rename` (esp_littlefs.c 1201-1230).  `renameRes` is the
`lfs_rename` oracle. -/
def vfs_littlefs_rename (s : LookupState) (src dst : List Nat)
    (renameRes : Int) : PathOpResult :=
  if 0 ≤ esp_littlefs_get_fd_by_name s src then ⟨-1, some EBUSY, false⟩
  else if 0 ≤ esp_littlefs_get_fd_by_name s dst then ⟨-1, some EBUSY, false⟩
  else if renameRes < 0 then ⟨-1, some (-renameRes), true⟩
  else ⟨0, none, true⟩

end EspLittlefs

namespace EspLittlefs

/-- A lookup state with the path "/a" (bytes `[47, 97]`) open at
descriptor 0, as `vfs_littlefs_open` records it (stored hash =
`compute_hash` of the path, stored path = the path). -/
def stateWithSlashAOpen : LookupState :=
  { cache := [some ⟨compute_hash [47, 97], [47, 97]⟩], fd_count := 1 }

/-- C3 (code bug): unlinking the open path "/a" does fail (returns `-1`)
and does not invoke `lfs_remove`, but the open-descriptor branch sets
`errno = -res` where `res` is the stat result of the path — necessarily
`0` at that point — so the reported error is `0`, not `EBUSY`; the
is-a-directory branch, in contrast, correctly reports
`-LFS_ERR_ISDIR` (= `EISDIR`) without removal. -/
theorem unlink_open_path_reports_errno_zero :
    vfs_littlefs_unlink stateWithSlashAOpen [47, 97] 0 false 0
      = ⟨-1, some 0, false⟩ ∧
    (0 : Int) ≠ EBUSY ∧
    vfs_littlefs_unlink stateWithSlashAOpen [47, 98] 0 true 0
      = ⟨-1, some (-LFS_ERR_ISDIR), false⟩ := by
  refine ⟨by decide, by decide, by decide⟩

/-- C4: if either the source or the destination of a rename currently has
an open descriptor (by-path lookup succeeds), `vfs_littlefs_rename` fails
with `errno = EBUSY` and the engine rename `lfs_rename` is never
invoked, whatever the engine would have answered. -/
theorem rename_busy_when_endpoint_open (s : LookupState) (src dst : List Nat)
    (renameRes : Int)
    (h : 0 ≤ esp_littlefs_get_fd_by_name s src ∨
         0 ≤ esp_littlefs_get_fd_by_name s dst) :
    vfs_littlefs_rename s src dst renameRes = ⟨-1, some EBUSY, false⟩ := by
  unfold vfs_littlefs_rename
  by_cases h1 : 0 ≤ esp_littlefs_get_fd_by_name s src
  · rw [if_pos h1]
  · rcases h with h | h
    · exact absurd h h1
    · rw [if_neg h1, if_pos h]

/-- Witness for C4: renaming away from the open path "/a". -/
theorem rename_busy_when_endpoint_open_witness :
    vfs_littlefs_rename stateWithSlashAOpen [47, 97] [47, 98] 0
      = ⟨-1, some EBUSY, false⟩ :=
  rename_busy_when_endpoint_open stateWithSlashAOpen [47, 97] [47, 98] 0
    (Or.inl (by decide))

theorem compute_hash_eq_djb2 (p : List Nat) :
    compute_hash p = djb2Reference p := by
  unfold compute_hash djb2Reference
  congr 1
  funext h c
  rw [Nat.shiftLeft_eq, Nat.mod_add_mod, Nat.add_assoc, Nat.mod_add_mod,
    ← Nat.add_assoc]
  congr 1

theorem get_fd_by_name_go_hash_first (hsh : Nat) (p : List Nat)
    (g : FileRec) (hne : g.hash ≠ hsh) :
    ∀ (cache : List (Option FileRec)) (k : Nat) (f : FileRec),
      cache.getD k none = some f → g.hash = f.hash →
      ∀ i j fdc, get_fd_by_name_go hsh p (cache.set k (some g)) i j fdc
        = get_fd_by_name_go hsh p cache i j fdc := by
  intro cache
  induction cache with
  | nil => intro k f hslot; simp [List.getD] at hslot
  | cons c rest ih =>
    intro k f hslot hg i j fdc
    cases k with
    | zero =>
      simp only [List.getD_cons_zero] at hslot
      subst hslot
      by_cases hj : j < fdc
      · have hnef : f.hash ≠ hsh := by rw [← hg]; exact hne
        simp only [List.set, get_fd_by_name_go, if_pos hj, if_neg hne,
          if_neg hnef]
      · simp only [List.set, get_fd_by_name_go, if_neg hj]
    | succ n =>
      simp only [List.getD_cons_succ] at hslot
      have ihr := ih n f hslot hg
      by_cases hj : j < fdc
      · cases c with
        | none =>
          simp only [List.set, get_fd_by_name_go, if_pos hj]
          exact ihr _ _ _
        | some f' =>
          by_cases hh : f'.hash = hsh
          · by_cases hp : f'.path = p
            · simp only [List.set, get_fd_by_name_go, if_pos hj, if_pos hh,
                if_pos hp]
            · simp only [List.set, get_fd_by_name_go, if_pos hj, if_pos hh,
                if_neg hp]
              exact ihr _ _ _
          · simp only [List.set, get_fd_by_name_go, if_pos hj, if_neg hh]
            exact ihr _ _ _
      · simp only [List.set, get_fd_by_name_go, if_neg hj]

/-- C8: the path hash used by the by-path lookup equals the DJB2
reference recurrence, and the lookup compares the hash first: the stored
path of a slot whose hash differs from the probe hash is never consulted,
i.e. replacing such a record by one with the same (mismatching) hash but
any other path leaves the lookup result unchanged. -/
theorem path_hash_djb2_and_hash_compared_first (p : List Nat)
    (s : LookupState) (k : Nat) (f g : FileRec)
    (hslot : s.cache.getD k none = some f)
    (hne : f.hash ≠ compute_hash p)
    (hg : g.hash = f.hash) :
    compute_hash p = djb2Reference p ∧
    esp_littlefs_get_fd_by_name { s with cache := s.cache.set k (some g) } p
      = esp_littlefs_get_fd_by_name s p := by
  refine ⟨compute_hash_eq_djb2 p, ?_⟩
  unfold esp_littlefs_get_fd_by_name
  exact get_fd_by_name_go_hash_first (compute_hash p) p g
    (by rw [hg]; exact hne) s.cache k f hslot hg 0 0 s.fd_count

/-- Witness for C8: probing "/b" against the volume holding "/a" open;
the stored record's path may be replaced (here by the path `[99]`)
without changing the lookup result because its hash mismatches. -/
theorem path_hash_djb2_witness :
    compute_hash [47, 98] = djb2Reference [47, 98] ∧
    esp_littlefs_get_fd_by_name
        { stateWithSlashAOpen with
          cache := stateWithSlashAOpen.cache.set 0
            (some ⟨compute_hash [47, 97], [99]⟩) } [47, 98]
      = esp_littlefs_get_fd_by_name stateWithSlashAOpen [47, 98] :=
  path_hash_djb2_and_hash_compared_first [47, 98] stateWithSlashAOpen 0
    ⟨compute_hash [47, 97], [47, 97]⟩ ⟨compute_hash [47, 97], [99]⟩
    (by decide) (by decide) (by decide)

end EspLittlefs

namespace EspLittlefs

/-! ## The open wrapper and cache growth (C5) -/

/-- Result of a `vfs_littlefs_open` call: return value, the value written
to `errno` (`none` = untouched), the resulting fd state, and whether
`lfs_file_open` was invoked. -/
structure OpenResult where
  ret : Int
  errnoVal : Option Int
  state : EfsState
  engineOpened : Bool
deriving DecidableEq, Repr

/-- `vfs_littlefs_open` (esp_littlefs.c 859-915), restricted to its fd
bookkeeping: allocate a descriptor — on failure set
`errno = -LFS_ERR_INVAL` and return `-1` — then call `lfs_file_open`
(outcome given by the oracle `engineRes`); on engine failure free the
descriptor again, set `errno = -res` and return `-1`; on success return
the descriptor.  The hash/path stored into the record and the mtime
update act on record fields that `EfsState` does not track. -/
def vfs_littlefs_open (s : EfsState) (newId : FileId) (rOk cOk : Bool)
    (engineRes : Int) : Option OpenResult :=
  match esp_littlefs_allocate_fd s newId rOk cOk with
  | none => none
  | some (fd, s1) =>
    if fd < 0 then some ⟨-1, some (-LFS_ERR_INVAL), s1, false⟩
    else if engineRes < 0 then
      match esp_littlefs_free_fd s1 fd.toNat with
      | none => none
      | some (_, s2) => some ⟨-1, some (-engineRes), s2, true⟩
    else some ⟨fd, none, s1, true⟩

theorem getD_some_lt (l : List (Option FileId)) (j : Nat) (v : FileId)
    (h : l.getD j none = some v) : j < l.length := by
  by_contra hc
  rw [List.getD_eq_default _ _ (by omega)] at h
  exact absurd h (by simp)

theorem set_findFreeSlot_getD_preserve (cache : List (Option FileId))
    (a : FileId) (j : Nat) (v : FileId) (h : cache.getD j none = some v) :
    (cache.set (findFreeSlot cache) (some a)).getD j none = some v := by
  induction cache generalizing j with
  | nil => simp [List.getD] at h
  | cons c rest ih =>
    cases c with
    | none =>
      cases j with
      | zero => simp only [List.getD_cons_zero] at h; exact absurd h (by simp)
      | succ n =>
        simp only [List.getD_cons_succ] at h
        simpa only [findFreeSlot, List.set, List.getD_cons_succ] using h
    | some b =>
      cases j with
      | zero =>
        simp only [List.getD_cons_zero] at h
        simpa only [findFreeSlot, List.set, List.getD_cons_zero] using h
      | succ n =>
        simp only [List.getD_cons_succ] at h
        simpa only [findFreeSlot, List.set, List.getD_cons_succ] using ih n h

theorem allocate_fd_grow_eq (s : EfsState) (newId : FileId) (cOk : Bool)
    (ha1 : s.fd_count < UINT16_MAX) (ha2 : s.cache.length < UINT16_MAX)
    (hneed : s.fd_count + 1 > s.cache.length) :
    esp_littlefs_allocate_fd s newId true cOk =
      if cOk = false then some (-1, { s with cache := grownCache s.cache })
      else some ((findFreeSlot (grownCache s.cache) : Int),
        { cache := (grownCache s.cache).set
            (findFreeSlot (grownCache s.cache)) (some newId),
          fd_count := (s.fd_count + 1) % (UINT16_MAX + 1),
          file := newId :: s.file }) := by
  unfold esp_littlefs_allocate_fd
  rw [if_neg (by omega), if_neg (by omega), if_neg (by simp), if_pos hneed]

theorem allocate_fd_growfail_eq (s : EfsState) (newId : FileId) (cOk : Bool)
    (ha1 : s.fd_count < UINT16_MAX) (ha2 : s.cache.length < UINT16_MAX)
    (hneed : s.fd_count + 1 > s.cache.length) :
    esp_littlefs_allocate_fd s newId false cOk = some (-1, s) := by
  unfold esp_littlefs_allocate_fd
  rw [if_neg (by omega), if_neg (by omega), if_pos ⟨hneed, rfl⟩]

/-- C5 (amended): when `fd_count + 1` exceeds the capacity, the cache is
grown to `min(UINT16_MAX, 2 * capacity)`; the growth zero-fills every new
slot; a successful allocation never renumbers an existing binding; and on
growth (realloc) failure the volume state is completely unchanged and the
failure is reported by the `-1` return, which `vfs_littlefs_open`
surfaces as `errno = -LFS_ERR_INVAL` — not as an OutOfMemory code. -/
theorem allocate_fd_growth_properties (s : EfsState) (newId : FileId)
    (cOk : Bool) (j k : Nat) (v : FileId) (fd : Int) (s' : EfsState)
    (engineRes : Int)
    (ha1 : s.fd_count < UINT16_MAX) (ha2 : s.cache.length < UINT16_MAX)
    (hneed : s.fd_count + 1 > s.cache.length) :
    (grownCache s.cache).length
        = min UINT16_MAX (FD_CACHE_REALLOC_FACTOR * s.cache.length) ∧
    (s.cache.length ≤ j → (grownCache s.cache).getD j none = none) ∧
    (esp_littlefs_allocate_fd s newId true cOk = some (fd, s') →
        s.cache.getD k none = some v → s'.cache.getD k none = some v) ∧
    esp_littlefs_allocate_fd s newId false cOk = some (-1, s) ∧
    vfs_littlefs_open s newId false cOk engineRes
        = some ⟨-1, some (-LFS_ERR_INVAL), s, false⟩ := by
  have h4 := allocate_fd_growfail_eq s newId cOk ha1 ha2 hneed
  refine ⟨grownCache_length s.cache (by omega), ?_, ?_, h4, ?_⟩
  · intro hj
    exact grownCache_getD_new s.cache j (by omega) hj
  · intro halloc hv
    have hklt : k < s.cache.length := getD_some_lt s.cache k v hv
    have hgv : (grownCache s.cache).getD k none = some v := by
      rw [grownCache_getD_lt s.cache k (by omega) hklt]; exact hv
    rw [allocate_fd_grow_eq s newId cOk ha1 ha2 hneed] at halloc
    by_cases hc : cOk = false
    · rw [if_pos hc] at halloc
      simp only [Option.some.injEq, Prod.mk.injEq] at halloc
      obtain ⟨-, hs'⟩ := halloc
      subst hs'
      exact hgv
    · rw [if_neg hc] at halloc
      simp only [Option.some.injEq, Prod.mk.injEq] at halloc
      obtain ⟨-, hs'⟩ := halloc
      subst hs'
      exact set_findFreeSlot_getD_preserve (grownCache s.cache) newId k v hgv
  · unfold vfs_littlefs_open
    rw [h4]
    norm_num

end EspLittlefs

namespace EspLittlefs

/-- A volume whose single-slot cache is full, so the next allocation must
grow it. -/
def fullTinyState : EfsState :=
  { cache := [some 10], fd_count := 1, file := [10] }

/-- C5 counterexample: on growth (realloc) failure the error surfaced by
`vfs_littlefs_open` is `-LFS_ERR_INVAL` (= `EINVAL` = 22), not the
platform OutOfMemory value `ENOMEM` (= 12) — no OutOfMemory condition is
reported (the state is indeed unchanged). -/
theorem growth_failure_not_reported_as_oom :
    vfs_littlefs_open fullTinyState 11 false true 0
      = some ⟨-1, some (-LFS_ERR_INVAL), fullTinyState, false⟩ ∧
    (-LFS_ERR_INVAL : Int) ≠ ENOMEM := by
  refine ⟨by decide, by decide⟩

/-- Witness for the amended C5 at the concrete full one-slot volume. -/
theorem allocate_fd_growth_properties_witness :
    (grownCache fullTinyState.cache).length
        = min UINT16_MAX (FD_CACHE_REALLOC_FACTOR * fullTinyState.cache.length) ∧
    (fullTinyState.cache.length ≤ 1 →
        (grownCache fullTinyState.cache).getD 1 none = none) ∧
    (esp_littlefs_allocate_fd fullTinyState 11 true true
        = some (1, { cache := [some 10, some 11], fd_count := 2,
                     file := [11, 10] }) →
      fullTinyState.cache.getD 0 none = some 10 →
      ({ cache := [some 10, some 11], fd_count := 2,
          file := [11, 10] } : EfsState).cache.getD 0 none = some 10) ∧
    esp_littlefs_allocate_fd fullTinyState 11 false true
        = some (-1, fullTinyState) ∧
    vfs_littlefs_open fullTinyState 11 false true 0
        = some ⟨-1, some (-LFS_ERR_INVAL), fullTinyState, false⟩ :=
  allocate_fd_growth_properties fullTinyState 11 true 1 0 10 1
    { cache := [some 10, some 11], fd_count := 2, file := [11, 10] } 0
    (by decide) (by decide) (by decide)

end EspLittlefs

namespace EspLittlefs

/-! ## Open-flag translation (C6)

Numeric flag values of the external collaborators: the newlib `fcntl.h`
used by the ESP32 toolchain and the littlefs `lfs.h`.  Neither header is
part of this repository. -/

def O_RDONLY : Nat := 0

def O_WRONLY : Nat := 1

def O_RDWR : Nat := 2

def O_APPEND : Nat := 8

def O_CREAT : Nat := 512

def O_TRUNC : Nat := 1024

def O_EXCL : Nat := 2048

def LFS_O_RDONLY : Nat := 1

def LFS_O_WRONLY : Nat := 2

def LFS_O_RDWR : Nat := 3

def LFS_O_CREAT : Nat := 256

def LFS_O_EXCL : Nat := 512

def LFS_O_TRUNC : Nat := 1024

def LFS_O_APPEND : Nat := 2048

/-- `esp_littlefs_flags_conv` (esp_littlefs.c 429-439): the append and
read-only clauses test full-value equality (`m == O_APPEND`,
`m == O_RDONLY`), the remaining five clauses test single bits. -/
def esp_littlefs_flags_conv (m : Nat) : Nat :=
  let f0 : Nat := 0
  let f1 := if m = O_APPEND then f0 ||| LFS_O_APPEND else f0
  let f2 := if m = O_RDONLY then f1 ||| LFS_O_RDONLY else f1
  let f3 := if m &&& O_WRONLY ≠ 0 then f2 ||| LFS_O_WRONLY else f2
  let f4 := if m &&& O_RDWR ≠ 0 then f3 ||| LFS_O_RDWR else f3
  let f5 := if m &&& O_EXCL ≠ 0 then f4 ||| LFS_O_EXCL else f4
  let f6 := if m &&& O_CREAT ≠ 0 then f5 ||| LFS_O_CREAT else f5
  if m &&& O_TRUNC ≠ 0 then f6 ||| LFS_O_TRUNC else f6

/-- C6 counterexample: the read-only engine bit is NOT set "only when the
entire input equals exactly O_RDONLY": `LFS_O_RDWR = 3` contains
`LFS_O_RDONLY = 1`, so an input of exactly `O_RDWR` also sets it. -/
theorem flags_conv_rdonly_bit_not_only_on_rdonly :
    esp_littlefs_flags_conv O_RDWR &&& LFS_O_RDONLY = LFS_O_RDONLY ∧
    O_RDWR ≠ O_RDONLY := by
  refine ⟨by decide, by decide⟩

end EspLittlefs

namespace EspLittlefs

theorem ite_or_shift (c : Prop) [Decidable c] (a x : Nat) :
    (if c then a ||| x else a) = a ||| (if c then x else 0) := by
  by_cases h : c
  · rw [if_pos h, if_pos h]
  · rw [if_neg h, if_neg h, Nat.or_zero]

/-- The translation as a disjunction of independent per-clause
contributions. -/
theorem flags_conv_formula (m : Nat) :
    esp_littlefs_flags_conv m =
      (if m = O_APPEND then LFS_O_APPEND else 0) |||
      (if m = O_RDONLY then LFS_O_RDONLY else 0) |||
      (if m &&& O_WRONLY ≠ 0 then LFS_O_WRONLY else 0) |||
      (if m &&& O_RDWR ≠ 0 then LFS_O_RDWR else 0) |||
      (if m &&& O_EXCL ≠ 0 then LFS_O_EXCL else 0) |||
      (if m &&& O_CREAT ≠ 0 then LFS_O_CREAT else 0) |||
      (if m &&& O_TRUNC ≠ 0 then LFS_O_TRUNC else 0) := by
  unfold esp_littlefs_flags_conv
  simp only [ite_or_shift, Nat.zero_or]

/-- C6 (amended): the write-only, read-write, exclusive, create and
truncate engine flags are set whenever the corresponding input bit is set,
regardless of other bits; the append clause fires by full-value equality,
so the append output bit is set iff the input equals exactly `O_APPEND`;
the read-only clause also fires only on full-value equality
(`m == O_RDONLY`, i.e. `m == 0`), but because `LFS_O_RDWR` numerically
contains `LFS_O_RDONLY`, the read-only output bit is set iff the input is
exactly `O_RDONLY` or has the `O_RDWR` bit. -/
theorem flags_conv_per_bit_and_equality (m : Nat) :
    (m &&& O_WRONLY ≠ 0 →
        esp_littlefs_flags_conv m &&& LFS_O_WRONLY = LFS_O_WRONLY) ∧
    (m &&& O_RDWR ≠ 0 →
        esp_littlefs_flags_conv m &&& LFS_O_RDWR = LFS_O_RDWR) ∧
    (m &&& O_EXCL ≠ 0 →
        esp_littlefs_flags_conv m &&& LFS_O_EXCL = LFS_O_EXCL) ∧
    (m &&& O_CREAT ≠ 0 →
        esp_littlefs_flags_conv m &&& LFS_O_CREAT = LFS_O_CREAT) ∧
    (m &&& O_TRUNC ≠ 0 →
        esp_littlefs_flags_conv m &&& LFS_O_TRUNC = LFS_O_TRUNC) ∧
    (esp_littlefs_flags_conv m &&& LFS_O_APPEND ≠ 0 ↔ m = O_APPEND) ∧
    (esp_littlefs_flags_conv m &&& LFS_O_RDONLY ≠ 0 ↔
        (m = O_RDONLY ∨ m &&& O_RDWR ≠ 0)) := by
  rw [flags_conv_formula]
  refine ⟨?_, ?_, ?_, ?_, ?_, ?_, ?_⟩
  · intro hh
    split_ifs <;> decide
  · intro hh
    split_ifs <;> decide
  · intro hh
    split_ifs <;> decide
  · intro hh
    split_ifs <;> decide
  · intro hh
    split_ifs <;> decide
  · split_ifs <;>
      first
        | exact iff_of_true (by decide) ‹_›
        | exact iff_of_false (by decide) ‹_›
  · split_ifs <;>
      first
        | exact iff_of_true (by decide) (Or.inl ‹_›)
        | exact iff_of_true (by decide) (Or.inr ‹_›)
        | exact iff_of_false (by decide)
            (fun hor => hor.elim (fun hx => absurd hx ‹_›)
              (fun hx => absurd hx ‹_›))

/-- Witness for C6 (amended) at `m = O_WRONLY|O_CREAT` and `m = O_APPEND`. -/
theorem flags_conv_per_bit_and_equality_witness :
    esp_littlefs_flags_conv 513 &&& LFS_O_WRONLY = LFS_O_WRONLY ∧
    esp_littlefs_flags_conv 513 &&& LFS_O_CREAT = LFS_O_CREAT ∧
    esp_littlefs_flags_conv 8 &&& LFS_O_APPEND ≠ 0 :=
  ⟨(flags_conv_per_bit_and_equality 513).1 (by decide),
   (flags_conv_per_bit_and_equality 513).2.2.2.1 (by decide),
   ((flags_conv_per_bit_and_equality 8).2.2.2.2.2.1).mpr (by decide)⟩

end EspLittlefs

namespace EspLittlefs

/-! ## Directory iteration (C7) -/

/-- One entry produced by the engine's `lfs_dir_read` (`struct lfs_info`
restricted to what the adapter looks at). -/
structure DirEntInfo where
  name : String
  isReg : Bool
deriving DecidableEq, Repr

/-- A `vfs_littlefs_dir_t` iterator over an error-free engine stream:
`entries` is the sequence `lfs_dir_read` yields (including the "." and
".." pseudo-entries), `pos` the engine read position, `offset` the
adapter's `dir->offset` field. -/
structure VfsDir where
  entries : List DirEntInfo
  pos : Nat
  offset : Int
deriving DecidableEq, Repr

/-- The `do { res = lfs_dir_read(...); } while(res > 0 && (name == "." ||
name == ".."))` loop of `vfs_littlefs_readdir_r` (esp_littlefs.c
1313-1315): first entry not named "." or "..", together with the number
of engine reads consumed; `none` when the stream ends first
(`lfs_dir_read` returned 0). -/
def readSkipDots : List DirEntInfo → Option DirEntInfo × Nat
  | [] => (none, 0)
  | e :: rest =>
    if e.name = "." ∨ e.name = ".." then
      let r := readSkipDots rest
      (r.1, r.2 + 1)
    else (some e, 1)

/-- `vfs_littlefs_readdir_r` (esp_littlefs.c 1304-1350) on an error-free
engine: run the skip loop; report the entry found, or no entry at end of
stream; `dir->offset++` runs once in either case before the final
`return 0`. -/
def vfs_littlefs_readdir_r (d : VfsDir) : Option DirEntInfo × VfsDir :=
  let r := readSkipDots (d.entries.drop d.pos)
  (r.1, { d with pos := d.pos + r.2, offset := d.offset + 1 })

/-- C7 counterexample: reading an empty directory stream returns no
entry, yet the logical offset is still incremented (0 to 1) — the offset
does not count only real entries. -/
theorem readdir_offset_counts_end_of_stream :
    (vfs_littlefs_readdir_r ⟨[], 0, 0⟩).1 = none ∧
    (vfs_littlefs_readdir_r ⟨[], 0, 0⟩).2.offset = 1 := by
  refine ⟨by decide, by decide⟩

theorem readSkipDots_not_dot (l : List DirEntInfo) (e : DirEntInfo)
    (h : (readSkipDots l).1 = some e) : e.name ≠ "." ∧ e.name ≠ ".." := by
  induction l with
  | nil => simp [readSkipDots] at h
  | cons x rest ih =>
    by_cases hx : x.name = "." ∨ x.name = ".."
    · rw [readSkipDots, if_pos hx] at h
      exact ih h
    · rw [readSkipDots, if_neg hx] at h
      simp only [Option.some.injEq] at h
      subst h
      exact ⟨fun hc => hx (Or.inl hc), fun hc => hx (Or.inr hc)⟩

/-- C7 (amended): `readdir` never returns an entry named "." or ".."
(they are skipped transparently), and the logical offset is incremented
exactly once per `readdir_r` call that returns 0 — including the call
that reports the end of the directory — so the offset is strictly
monotonic but counts real entries plus end-of-stream reads, not only
real entries. -/
theorem readdir_skips_dots_and_increments_offset (d : VfsDir) :
    (∀ e, (vfs_littlefs_readdir_r d).1 = some e →
        e.name ≠ "." ∧ e.name ≠ "..") ∧
    (vfs_littlefs_readdir_r d).2.offset = d.offset + 1 := by
  constructor
  · intro e h
    exact readSkipDots_not_dot (d.entries.drop d.pos) e h
  · rfl

/-- Witness for C7 (amended): a directory containing ".", ".." and a real
entry "a" yields "a" and advances the offset by one. -/
theorem readdir_skips_dots_witness :
    ((vfs_littlefs_readdir_r
        ⟨[⟨".", false⟩, ⟨"..", false⟩, ⟨"a", true⟩], 0, 0⟩).1 = some ⟨"a", true⟩) ∧
    (DirEntInfo.name ⟨"a", true⟩ ≠ "." ∧ DirEntInfo.name ⟨"a", true⟩ ≠ "..") ∧
    (vfs_littlefs_readdir_r
        ⟨[⟨".", false⟩, ⟨"..", false⟩, ⟨"a", true⟩], 0, 0⟩).2.offset = 0 + 1 :=
  ⟨by decide,
   (readdir_skips_dots_and_increments_offset
      ⟨[⟨".", false⟩, ⟨"..", false⟩, ⟨"a", true⟩], 0, 0⟩).1 ⟨"a", true⟩ (by decide),
   (readdir_skips_dots_and_increments_offset
      ⟨[⟨".", false⟩, ⟨"..", false⟩, ⟨"a", true⟩], 0, 0⟩).2⟩

end EspLittlefs

namespace EspLittlefs

/-! ## Block device adapter (C9, littlefs_api.c) -/

/-- The fields of `struct lfs_config` / `esp_littlefs_t` the adapter
reads: the block size and the backend selector flag. -/
structure LfsCfg where
  block_size : Nat
  internal_version : Bool
deriving DecidableEq, Repr

/-- A call issued to one of the two flash backends: the internal SPI
flash (`spi_flash_read` / `spi_flash_write` / `spi_flash_erase_range`) or
the external data flash (`data_spiflash_read` / `_write` / `_erase`),
with its absolute physical address and size. -/
inductive FlashCall where
  | spiRead (addr size : Nat)
  | spiWrite (addr size : Nat)
  | spiErase (addr size : Nat)
  | dataRead (addr size : Nat)
  | dataWrite (addr size : Nat)
  | dataErase (addr size : Nat)
deriving DecidableEq, Repr

/-- `littlefs_api_read` (littlefs_api.c 23-42), non-NEONIOUS build:
`part_off = block * block_size + off` (32-bit `size_t`), then
`spi_flash_read(gFSPos + part_off, ...)` for the internal backend or
`data_spiflash_read(part_off + CONFIG_CLIENT_SIZE_DATA_OFFSET, ...)`
otherwise.  `gFSPos` and the data offset are passed as parameters. -/
def littlefs_api_read (c : LfsCfg) (gFSPos dataOffset : Nat)
    (block off size : Nat) : FlashCall :=
  let part_off := (block * c.block_size + off) % UINT32_LIM
  if c.internal_version then FlashCall.spiRead ((gFSPos + part_off) % UINT32_LIM) size
  else FlashCall.dataRead ((part_off + dataOffset) % UINT32_LIM) size

/-- `littlefs_api_prog` (littlefs_api.c 44-63). -/
def littlefs_api_prog (c : LfsCfg) (gFSPos dataOffset : Nat)
    (block off size : Nat) : FlashCall :=
  let part_off := (block * c.block_size + off) % UINT32_LIM
  if c.internal_version then FlashCall.spiWrite ((gFSPos + part_off) % UINT32_LIM) size
  else FlashCall.dataWrite ((part_off + dataOffset) % UINT32_LIM) size

/-- `littlefs_api_erase` (littlefs_api.c 65-83): `part_off = block *
block_size`, erase size is one block. -/
def littlefs_api_erase (c : LfsCfg) (gFSPos dataOffset : Nat)
    (block : Nat) : FlashCall :=
  let part_off := (block * c.block_size) % UINT32_LIM
  if c.internal_version then
    FlashCall.spiErase ((gFSPos + part_off) % UINT32_LIM) c.block_size
  else FlashCall.dataErase ((part_off + dataOffset) % UINT32_LIM) c.block_size

/-- C9: absent 32-bit overflow, the adapter issues read and program at
physical address `block * block_size + off` plus the per-volume base
(`gFSPos` for the internal backend, the external data-region offset
otherwise), and erase at `block * block_size` plus the same base. -/
theorem block_adapter_address_translation (c : LfsCfg)
    (gFSPos dataOffset block off size : Nat)
    (hbase : (if c.internal_version then gFSPos else dataOffset)
        + block * c.block_size + off < UINT32_LIM) :
    (c.internal_version = true →
      littlefs_api_read c gFSPos dataOffset block off size
          = FlashCall.spiRead (gFSPos + (block * c.block_size + off)) size ∧
      littlefs_api_prog c gFSPos dataOffset block off size
          = FlashCall.spiWrite (gFSPos + (block * c.block_size + off)) size ∧
      littlefs_api_erase c gFSPos dataOffset block
          = FlashCall.spiErase (gFSPos + block * c.block_size) c.block_size) ∧
    (c.internal_version = false →
      littlefs_api_read c gFSPos dataOffset block off size
          = FlashCall.dataRead ((block * c.block_size + off) + dataOffset) size ∧
      littlefs_api_prog c gFSPos dataOffset block off size
          = FlashCall.dataWrite ((block * c.block_size + off) + dataOffset) size ∧
      littlefs_api_erase c gFSPos dataOffset block
          = FlashCall.dataErase (block * c.block_size + dataOffset) c.block_size) := by
  unfold littlefs_api_read littlefs_api_prog littlefs_api_erase
  have hlim : (0 : Nat) < UINT32_LIM := by decide
  constructor
  · intro hint
    rw [if_pos hint] at hbase
    simp only [hint, if_true]
    have h1 : (block * c.block_size + off) % UINT32_LIM
        = block * c.block_size + off := Nat.mod_eq_of_lt (by omega)
    have h2 : (block * c.block_size) % UINT32_LIM
        = block * c.block_size := Nat.mod_eq_of_lt (by omega)
    rw [h1, h2, Nat.mod_eq_of_lt (by omega), Nat.mod_eq_of_lt (by omega)]
    exact ⟨rfl, rfl, rfl⟩
  · intro hext
    rw [if_neg (by rw [hext]; exact Bool.false_ne_true)] at hbase
    simp only [hext, Bool.false_eq_true, if_false]
    have h1 : (block * c.block_size + off) % UINT32_LIM
        = block * c.block_size + off := Nat.mod_eq_of_lt (by omega)
    have h2 : (block * c.block_size) % UINT32_LIM
        = block * c.block_size := Nat.mod_eq_of_lt (by omega)
    rw [h1, h2, Nat.mod_eq_of_lt (by omega), Nat.mod_eq_of_lt (by omega)]
    exact ⟨rfl, rfl, rfl⟩

/-- Witness for C9 at block 3, offset 100, internal base 0x200000. -/
theorem block_adapter_address_translation_witness :
    ((⟨4096, true⟩ : LfsCfg).internal_version = true →
      littlefs_api_read ⟨4096, true⟩ 2097152 65536 3 100 16
          = FlashCall.spiRead (2097152 + (3 * 4096 + 100)) 16 ∧
      littlefs_api_prog ⟨4096, true⟩ 2097152 65536 3 100 16
          = FlashCall.spiWrite (2097152 + (3 * 4096 + 100)) 16 ∧
      littlefs_api_erase ⟨4096, true⟩ 2097152 65536 3
          = FlashCall.spiErase (2097152 + 3 * 4096) 4096) ∧
    ((⟨4096, true⟩ : LfsCfg).internal_version = false →
      littlefs_api_read ⟨4096, true⟩ 2097152 65536 3 100 16
          = FlashCall.dataRead ((3 * 4096 + 100) + 65536) 16 ∧
      littlefs_api_prog ⟨4096, true⟩ 2097152 65536 3 100 16
          = FlashCall.dataWrite ((3 * 4096 + 100) + 65536) 16 ∧
      littlefs_api_erase ⟨4096, true⟩ 2097152 65536 3
          = FlashCall.dataErase (3 * 4096 + 65536) 4096) :=
  block_adapter_address_translation ⟨4096, true⟩ 2097152 65536 3 100 16
    (by decide)

end EspLittlefs

namespace EspLittlefs

/-! ## Volume registry and the usage query (C10) -/

/-- The fields of a registered `esp_littlefs_t` volume that
`esp_littlefs_info` reads: its label and block geometry. -/
structure VolCfg where
  label : List Nat
  block_size : Nat
  block_count : Nat
deriving DecidableEq, Repr

/-- The scan of `esp_littlefs_by_label` (esp_littlefs.c 384-405) over the
`_efs` registry array: first index holding a volume whose label strcmp's
equal, else not-found. -/
def by_label_go (label : List Nat) :
    List (Option VolCfg) → Nat → Option Nat
  | [], _ => none
  | some v :: rest, i =>
      if v.label = label then some i else by_label_go label rest (i + 1)
  | none :: rest, i => by_label_go label rest (i + 1)

/-- `esp_littlefs_by_label` for a non-NULL label: `some index` models the
`ESP_OK` return with `*index` set, `none` the `ESP_ERR_NOT_FOUND`
return. -/
def esp_littlefs_by_label (efs : List (Option VolCfg)) (label : List Nat) :
    Option Nat :=
  by_label_go label efs 0

/-- `esp_littlefs_info` (esp_littlefs.c 127-142).  `fsSize` is the
`lfs_fs_size` oracle; `total_bytes` and `used_bytes` are the current
contents of the two output locations, returned possibly updated.  When
the label lookup fails the function does `return false` — the esp_err_t
value `0`, i.e. `ESP_OK` — without touching the outputs. -/
def esp_littlefs_info (efs : List (Option VolCfg)) (label : List Nat)
    (fsSize : Nat) (total_bytes used_bytes : Nat) : Int × Nat × Nat :=
  match esp_littlefs_by_label efs label with
  | none => (0, total_bytes, used_bytes)
  | some i =>
    match efs.getD i none with
    | none => (0, total_bytes, used_bytes)  -- unreachable: lookup returned i
    | some v =>
      (0, v.block_size * v.block_count, v.block_size * fsSize)

theorem by_label_go_none (label : List Nat) (efs : List (Option VolCfg))
    (h : ∀ v : VolCfg, some v ∈ efs → v.label ≠ label) :
    ∀ i, by_label_go label efs i = none := by
  induction efs with
  | nil => intro i; rfl
  | cons c rest ih =>
    intro i
    have hrest : ∀ v : VolCfg, some v ∈ rest → v.label ≠ label := by
      intro v hv
      exact h v (List.mem_cons_of_mem c hv)
    cases c with
    | none => simpa only [by_label_go] using ih hrest (i + 1)
    | some v =>
      rw [by_label_go, if_neg (h v (List.mem_cons_self _ _))]
      exact ih hrest (i + 1)

/-- C10: when no registered volume carries the requested partition label,
`esp_littlefs_info` returns immediately with status value 0 and leaves
both output locations unchanged. -/
theorem info_unknown_label_returns_zero_outputs_unchanged
    (efs : List (Option VolCfg)) (label : List Nat)
    (fsSize total_bytes used_bytes : Nat)
    (h : ∀ v : VolCfg, some v ∈ efs → v.label ≠ label) :
    esp_littlefs_info efs label fsSize total_bytes used_bytes
      = (0, total_bytes, used_bytes) := by
  unfold esp_littlefs_info esp_littlefs_by_label
  rw [by_label_go_none label efs h 0]

/-- Witness for C10: a registry holding one volume labelled "internal"
(bytes of the string), queried for "external". -/
theorem info_unknown_label_witness :
    esp_littlefs_info
      [some ⟨[105, 110, 116, 101, 114, 110, 97, 108], 4096, 256⟩]
      [101, 120, 116, 101, 114, 110, 97, 108] 7 11 22
      = (0, 11, 22) :=
  info_unknown_label_returns_zero_outputs_unchanged
    [some ⟨[105, 110, 116, 101, 114, 110, 97, 108], 4096, 256⟩]
    [101, 120, 116, 101, 114, 110, 97, 108] 7 11 22
    (fun v hv => by
      have hveq : v = ⟨[105, 110, 116, 101, 114, 110, 97, 108], 4096, 256⟩ := by
        simpa using hv
      subst hveq
      decide)

end EspLittlefs
